import Mathlib

/-!
Verification of the address-normalization pipeline of `src/app/page.tsx`.

The central function of the repository is `normalizeGoogleFormattedAddress`,
which turns a Google Geocoding `formatted_address` string into a display
address.  The JavaScript source is:

  function normalizeGoogleFormattedAddress(formatted: string): string {
    if (!formatted) return '';
    let s = formatted;
    s = s.replace(/^日本[、,\s]*/, '');
    s = s.replace(/^〒?\d{3}-\d{4}\s*/, '');
    s = s.replace(/,\s*/g, ' ');
    s = s.split(' ')[0];
    return s.trim();
  }

Strings are modelled as Lean `String` (a list of unicode code points); the
regexes are compiled by hand into functions on `List Char`.
-/

namespace AddressNorm

/-- The ECMAScript character class `\s` (WhiteSpace plus LineTerminator),
decided by code point: TAB, LF, VT, FF, CR, SP, NBSP, U+1680,
U+2000..U+200A, LS, PS, U+202F, U+205F, U+3000, BOM. -/
def jsWhitespace (c : Char) : Bool :=
  c.toNat = 0x9 || c.toNat = 0xA || c.toNat = 0xB || c.toNat = 0xC ||
  c.toNat = 0xD || c.toNat = 0x20 || c.toNat = 0xA0 || c.toNat = 0x1680 ||
  (0x2000 ≤ c.toNat && c.toNat ≤ 0x200A) || c.toNat = 0x2028 ||
  c.toNat = 0x2029 || c.toNat = 0x202F || c.toNat = 0x205F ||
  c.toNat = 0x3000 || c.toNat = 0xFEFF

/-- The character class `[、,\s]` of the country-stripping regex:
ideographic comma, ASCII comma, or `\s`. -/
def countrySep (c : Char) : Bool :=
  c = '、' || c = ',' || jsWhitespace c

/-- The ECMAScript character class `\d`, i.e. the ASCII digits 0-9. -/
def isAsciiDigit (c : Char) : Bool :=
  48 ≤ c.toNat && c.toNat ≤ 57

/-- `s.replace(/^日本[、,\s]*/, '')`: if the string starts with
the two characters 日本, remove them together with the maximal following
run of separator characters; otherwise leave the string unchanged. -/
def stripCountry (l : List Char) : List Char :=
  if l.head? = some '日' ∧ l.tail.head? = some '本'
  then l.tail.tail.dropWhile countrySep
  else l

/-- The mandatory part `\d{3}-\d{4}` of the postal-code regex:
three ASCII digits, an ASCII hyphen, four ASCII digits.  Returns the
remainder of the list on a match. -/
def postalBody (l : List Char) : Option (List Char) :=
  match l with
  | a :: b :: c :: hy :: d :: e :: f :: g :: rest =>
    if hy = '-' && isAsciiDigit a && isAsciiDigit b && isAsciiDigit c &&
       isAsciiDigit d && isAsciiDigit e && isAsciiDigit f && isAsciiDigit g
    then some rest else none
  | _ => none

/-- `s.replace(/^〒?\d{3}-\d{4}\s*/, '')`: an optional 〒 marker,
three digits, a hyphen, four digits, then the maximal run of `\s`
characters, all removed on a match; no match leaves the string unchanged.
(When the string starts with 〒, backtracking to the marker-less
alternative cannot succeed, since 〒 is not a digit.) -/
def stripPostal (l : List Char) : List Char :=
  let body := if l.head? = some '〒' then postalBody l.tail else postalBody l
  match body with
  | some r => r.dropWhile jsWhitespace
  | none => l

/-- Dropping a prefix cannot lengthen a list. -/
theorem dropWhile_length_le (p : Char → Bool) :
    ∀ l : List Char, (l.dropWhile p).length ≤ l.length := by
  intro l
  induction l with
  | nil => simp
  | cons c rest ih =>
    by_cases h : p c
    · rw [List.dropWhile_cons_of_pos h]
      exact Nat.le_succ_of_le ih
    · rw [List.dropWhile_cons_of_neg h]

/-- `s.replace(/,\s*/g, ' ')`: every ASCII comma together with the maximal
following run of `\s` characters becomes a single ASCII space; the global
regex scans left to right. -/
def commaToSpace : List Char → List Char
  | [] => []
  | c :: rest =>
    if c = ',' then ' ' :: commaToSpace (rest.dropWhile jsWhitespace)
    else c :: commaToSpace rest
termination_by l => l.length
decreasing_by
  · simp only [List.length_cons]
    exact Nat.lt_succ_of_le (dropWhile_length_le _ _)
  · simp

/-- The same global replace written as a left-to-right scan with an
explicit "inside the \s* of a match" flag; structurally recursive, so the
kernel can evaluate it on concrete inputs. -/
def commaScan (skip : Bool) : List Char → List Char
  | [] => []
  | c :: rest =>
    if skip && jsWhitespace c then commaScan true rest
    else if c = ',' then ' ' :: commaScan true rest
    else c :: commaScan false rest

/-- In the skipping state the scanner first discards the maximal
whitespace run, exactly as the greedy `\s*` does. -/
theorem commaScan_true (l : List Char) :
    commaScan true l = commaScan false (l.dropWhile jsWhitespace) := by
  induction l with
  | nil => rfl
  | cons c rest ih =>
    by_cases h : jsWhitespace c
    · rw [List.dropWhile_cons_of_pos h, ← ih]
      simp [commaScan, h]
    · rw [List.dropWhile_cons_of_neg h]
      simp [commaScan, h]

/-- The regex-style recursion and the scanner agree. -/
theorem commaToSpace_eq_scan (l : List Char) :
    commaToSpace l = commaScan false l := by
  induction l using commaToSpace.induct with
  | case1 => rw [commaToSpace]; rfl
  | case2 rest ih =>
    rw [commaToSpace, if_pos rfl, ih, ← commaScan_true]
    simp [commaScan]
  | case3 c rest h ih =>
    rw [commaToSpace, if_neg h, ih]
    simp [commaScan, h]

/-- `s.split(' ')[0]`: the segment before the first ASCII space, or the
whole string when it has none. -/
def firstSegment (l : List Char) : List Char :=
  l.takeWhile (fun c => !(c = ' '))

/-- `s.trim()`: remove the maximal whitespace runs at both ends
(ECMAScript `trim` removes exactly the `\s` set used above). -/
def jsTrim (l : List Char) : List Char :=
  ((l.dropWhile jsWhitespace).reverse.dropWhile jsWhitespace).reverse

/-- `normalizeGoogleFormattedAddress` of `src/app/page.tsx:193-211`:
the empty string short-circuits (the only falsy string), otherwise the
four rewriting steps run in order and the result is trimmed. -/
def normalizeGoogleFormattedAddress (formatted : String) : String :=
  if formatted = "" then ""
  else
    String.mk (jsTrim (firstSegment (commaToSpace
      (stripPostal (stripCountry formatted.data)))))

/-- Evaluation form of the pipeline: the same function with the scanner
in place of the well-founded comma replacement, so concrete instances
reduce in the kernel. -/
theorem normalize_eq_scan (s : String) :
    normalizeGoogleFormattedAddress s =
      if s = "" then ""
      else String.mk (jsTrim (firstSegment (commaScan false
        (stripPostal (stripCountry s.data))))) := by
  rw [normalizeGoogleFormattedAddress, commaToSpace_eq_scan]

/-- Does the character list match the leading country-name pattern
`^日本[、,\s]*` (equivalently: does it start with 日本)? -/
def countryPatL (l : List Char) : Bool :=
  decide (l.head? = some '日' ∧ l.tail.head? = some '本')

/-- Does the character list match the leading postal-code pattern
`^〒?\d{3}-\d{4}\s*`? -/
def postalPatL (l : List Char) : Bool :=
  if l.head? = some '〒' then (postalBody l.tail).isSome
  else (postalBody l).isSome

/-- Does the string still match the leading country-name pattern? -/
def hasCountryPat (s : String) : Bool :=
  countryPatL s.data

/-- Does the string still match the leading postal-code pattern? -/
def hasPostalPat (s : String) : Bool :=
  postalPatL s.data

/-- Does the string still match the space-separated building-name pattern,
i.e. contain an ASCII space for the truncation step to act on? -/
def hasSpacePat (s : String) : Bool :=
  s.data.contains ' '

/-! ### Basic list lemmas -/

/-- A string is rebuilt from its character list. -/
theorem strMk_data (s : String) : String.mk s.data = s := by
  cases s
  rfl

/-- What `dropWhile` removes is an initial run satisfying the predicate. -/
theorem exists_dropWhile (p : Char → Bool) (l : List Char) :
    ∃ pre, pre ++ l.dropWhile p = l ∧ ∀ x ∈ pre, p x = true := by
  induction l with
  | nil => exact ⟨[], rfl, by simp⟩
  | cons c rest ih =>
    by_cases h : p c
    · obtain ⟨pre, hpre, hall⟩ := ih
      refine ⟨c :: pre, ?_, ?_⟩
      · rw [List.cons_append, List.dropWhile_cons_of_pos h, hpre]
      · intro x hx
        rcases List.mem_cons.mp hx with hx | hx
        · exact hx ▸ h
        · exact hall x hx
    · exact ⟨[], by rw [List.nil_append, List.dropWhile_cons_of_neg h], by simp⟩

/-- `dropWhile` is idempotent. -/
theorem dropWhile_idem (p : Char → Bool) (l : List Char) :
    (l.dropWhile p).dropWhile p = l.dropWhile p := by
  induction l with
  | nil => rfl
  | cons c rest ih =>
    by_cases h : p c
    · rw [List.dropWhile_cons_of_pos h, ih]
    · rw [List.dropWhile_cons_of_neg h, List.dropWhile_cons_of_neg h]

/-- `dropWhile` skips a leading block every element of which satisfies the
predicate. -/
theorem dropWhile_append_of_all (p : Char → Bool) (pre l : List Char)
    (h : ∀ x ∈ pre, p x = true) :
    (pre ++ l).dropWhile p = l.dropWhile p := by
  induction pre with
  | nil => rfl
  | cons c rest ih =>
    rw [List.cons_append, List.dropWhile_cons_of_pos (h c (by simp))]
    exact ih fun x hx => h x (by simp [hx])

/-- If `dropWhile` keeps the whole list, its head fails the predicate. -/
theorem head_of_dropWhile_self (p : Char → Bool) (c : Char) (l : List Char)
    (h : (c :: l).dropWhile p = c :: l) : p c = false := by
  by_cases hc : p c
  · exfalso
    rw [List.dropWhile_cons_of_pos hc] at h
    have := congrArg List.length h
    simp only [List.length_cons] at this
    have hle := dropWhile_length_le p l
    omega
  · exact Bool.of_not_eq_true hc

/-- A list whose head fails the predicate is untouched by `dropWhile`. -/
theorem dropWhile_eq_self_of_head (p : Char → Bool) (l : List Char)
    (h : ∀ c, l.head? = some c → p c = false) : l.dropWhile p = l := by
  cases l with
  | nil => rfl
  | cons c rest =>
    exact List.dropWhile_cons_of_neg (by simp [h c rfl])

/-- Elements kept by `takeWhile` satisfy the predicate. -/
theorem mem_takeWhile_pred (p : Char → Bool) (l : List Char) (a : Char)
    (h : a ∈ l.takeWhile p) : p a = true := by
  induction l with
  | nil => simp at h
  | cons c rest ih =>
    by_cases hc : p c
    · rw [List.takeWhile_cons_of_pos hc] at h
      rcases List.mem_cons.mp h with h | h
      · exact h ▸ hc
      · exact ih h
    · rw [List.takeWhile_cons_of_neg hc] at h
      simp at h

/-- `takeWhile` keeps an initial segment of the list. -/
theorem exists_takeWhile (p : Char → Bool) (l : List Char) :
    ∃ post, l.takeWhile p ++ post = l := by
  induction l with
  | nil => exact ⟨[], rfl⟩
  | cons c rest ih =>
    by_cases h : p c
    · obtain ⟨post, hpost⟩ := ih
      exact ⟨post, by rw [List.takeWhile_cons_of_pos h, List.cons_append, hpost]⟩
    · exact ⟨c :: rest, by rw [List.takeWhile_cons_of_neg h, List.nil_append]⟩

/-- `takeWhile` keeps a list all of whose elements pass the predicate. -/
theorem takeWhile_eq_self_of_all (p : Char → Bool) (l : List Char)
    (h : ∀ a ∈ l, p a = true) : l.takeWhile p = l := by
  induction l with
  | nil => rfl
  | cons c rest ih =>
    rw [List.takeWhile_cons_of_pos (h c (by simp))]
    rw [ih fun a ha => h a (by simp [ha])]

/-! ### Lemmas about the pipeline stages -/

/-- Trimming removes only characters at the two ends. -/
theorem exists_jsTrim (l : List Char) :
    ∃ pre post, pre ++ jsTrim l ++ post = l := by
  obtain ⟨pre, hpre, -⟩ := exists_dropWhile jsWhitespace l
  obtain ⟨mid, hmid, -⟩ :=
    exists_dropWhile jsWhitespace (l.dropWhile jsWhitespace).reverse
  refine ⟨pre, mid.reverse, ?_⟩
  rw [jsTrim]
  have : l.dropWhile jsWhitespace =
      ((l.dropWhile jsWhitespace).reverse.dropWhile jsWhitespace).reverse
        ++ mid.reverse := by
    have := congrArg List.reverse hmid
    rw [List.reverse_append, List.reverse_reverse] at this
    exact this.symm
  rw [List.append_assoc, ← this, hpre]

/-- Characters of the trimmed list come from the original list. -/
theorem mem_of_mem_jsTrim (a : Char) (l : List Char) (h : a ∈ jsTrim l) :
    a ∈ l := by
  obtain ⟨pre, post, hl⟩ := exists_jsTrim l
  rw [← hl]
  simp [h]

/-- Trimming a trimmed list changes nothing. -/
theorem jsTrim_idem (l : List Char) : jsTrim (jsTrim l) = jsTrim l := by
  set A := l.dropWhile jsWhitespace with hA
  set B := A.reverse.dropWhile jsWhitespace with hB
  have hArev : A = B.reverse ++ (A.reverse.takeWhile jsWhitespace).reverse := by
    have h1 : A.reverse.takeWhile jsWhitespace ++ B = A.reverse := by
      rw [hB]
      exact List.takeWhile_append_dropWhile jsWhitespace A.reverse
    have h2 := congrArg List.reverse h1
    rw [List.reverse_reverse, List.reverse_append] at h2
    exact h2.symm
  have hBdrop : B.reverse.dropWhile jsWhitespace = B.reverse := by
    apply dropWhile_eq_self_of_head
    intro c hc
    cases hBr : B.reverse with
    | nil => rw [hBr] at hc; simp at hc
    | cons b t =>
      rw [hBr] at hc
      simp only [List.head?_cons, Option.some.injEq] at hc
      subst hc
      have hAhead : A = b :: (t ++ (A.reverse.takeWhile jsWhitespace).reverse) := by
        conv_lhs => rw [hArev, hBr]
        rw [List.cons_append]
      have hself : A.dropWhile jsWhitespace = A := by
        rw [hA]
        exact dropWhile_idem jsWhitespace l
      rw [hAhead] at hself
      exact head_of_dropWhile_self jsWhitespace b _ hself
  have hBB : B.dropWhile jsWhitespace = B := by
    rw [hB]
    exact dropWhile_idem jsWhitespace A.reverse
  show ((B.reverse.dropWhile jsWhitespace).reverse.dropWhile
      jsWhitespace).reverse = B.reverse
  rw [hBdrop, List.reverse_reverse, hBB]

/-- The comma replacement never outputs a comma. -/
theorem comma_not_mem_commaToSpace (l : List Char) :
    ',' ∉ commaToSpace l := by
  induction l using commaToSpace.induct with
  | case1 => rw [commaToSpace]; simp
  | case2 rest ih =>
    rw [commaToSpace, if_pos rfl]
    intro h
    rcases List.mem_cons.mp h with h | h
    · exact absurd h (by decide)
    · exact ih h
  | case3 c rest h ih =>
    rw [commaToSpace, if_neg h]
    intro hm
    rcases List.mem_cons.mp hm with hm | hm
    · exact h hm.symm
    · exact ih hm

/-- A comma-free list passes through the comma replacement unchanged. -/
theorem commaToSpace_of_no_comma (l : List Char) (h : ',' ∉ l) :
    commaToSpace l = l := by
  induction l with
  | nil => rw [commaToSpace]
  | cons c rest ih =>
    have hc : ¬c = ',' := fun hc => h (by simp [hc])
    rw [commaToSpace, if_neg hc, ih fun hm => h (by simp [hm])]

/-- The segment before the first space of the comma-replaced list is the
segment of the original list before the first space or comma. -/
theorem firstSegment_commaToSpace (l : List Char) :
    firstSegment (commaToSpace l) =
      l.takeWhile (fun c => !(c = ' ' || c = ',')) := by
  induction l using commaToSpace.induct with
  | case1 => rw [commaToSpace]; rfl
  | case2 rest ih =>
    rw [commaToSpace, if_pos rfl, firstSegment,
      List.takeWhile_cons_of_neg (by decide),
      List.takeWhile_cons_of_neg (by decide)]
  | case3 c rest h ih =>
    by_cases hsp : c = ' '
    · subst hsp
      rw [commaToSpace, if_neg h, firstSegment,
        List.takeWhile_cons_of_neg (by decide),
        List.takeWhile_cons_of_neg (by decide)]
    · rw [commaToSpace, if_neg h, firstSegment,
        List.takeWhile_cons_of_pos (by simp [hsp]),
        List.takeWhile_cons_of_pos (by simp [hsp, h])]
      exact congrArg (c :: ·) ih

/-- A list not matching the country pattern is untouched by the
country-stripping step. -/
theorem stripCountry_of_no_pat (l : List Char) (h : countryPatL l = false) :
    stripCountry l = l := by
  rw [countryPatL] at h
  rw [stripCountry, if_neg (of_decide_eq_false h)]

/-- A list not matching the postal pattern is untouched by the
postal-stripping step. -/
theorem stripPostal_of_no_pat (l : List Char) (h : postalPatL l = false) :
    stripPostal l = l := by
  rw [stripPostal, postalPatL] at *
  by_cases hh : l.head? = some '〒'
  · rw [if_pos hh] at h ⊢
    cases hb : postalBody l.tail with
    | none => rfl
    | some r => rw [hb] at h; simp at h
  · rw [if_neg hh] at h ⊢
    cases hb : postalBody l with
    | none => rfl
    | some r => rw [hb] at h; simp at h

/-- The country-stripping step removes only a prefix. -/
theorem exists_stripCountry (l : List Char) :
    ∃ pre, pre ++ stripCountry l = l := by
  rw [stripCountry]
  by_cases h : l.head? = some '日' ∧ l.tail.head? = some '本'
  · rw [if_pos h]
    obtain ⟨h1, h2⟩ := h
    cases l with
    | nil => simp at h1
    | cons c1 t =>
      cases t with
      | nil => simp at h2
      | cons c2 rest =>
        simp only [List.head?_cons, Option.some.injEq] at h1
        simp only [List.tail_cons, List.head?_cons, Option.some.injEq] at h2
        subst h1
        subst h2
        obtain ⟨pre, hpre, -⟩ := exists_dropWhile countrySep rest
        refine ⟨'日' :: '本' :: pre, ?_⟩
        simp only [List.tail_cons, List.cons_append]
        rw [hpre]
  · rw [if_neg h]
    exact ⟨[], rfl⟩

/-- The postal body, on a match, returns a suffix of its input (eight
characters shorter). -/
theorem exists_postalBody (l r : List Char) (h : postalBody l = some r) :
    ∃ pre, pre ++ r = l := by
  rw [postalBody.eq_def] at h
  split at h
  · rename_i a b c hy d e f g rest
    split at h
    · injection h with h2
      subst h2
      exact ⟨[a, b, c, hy, d, e, f, g], rfl⟩
    · cases h
  · cases h

/-- The postal-stripping step removes only a prefix. -/
theorem exists_stripPostal (l : List Char) :
    ∃ pre, pre ++ stripPostal l = l := by
  rw [stripPostal]
  by_cases hh : l.head? = some '〒'
  · rw [if_pos hh]
    cases hb : postalBody l.tail with
    | none => exact ⟨[], rfl⟩
    | some r =>
      obtain ⟨pre, hpre⟩ := exists_postalBody l.tail r hb
      obtain ⟨pre2, hpre2, -⟩ := exists_dropWhile jsWhitespace r
      cases l with
      | nil => simp at hh
      | cons c t =>
        simp only [List.head?_cons, Option.some.injEq] at hh
        refine ⟨c :: pre ++ pre2, ?_⟩
        simp only [List.tail_cons] at hpre
        rw [List.append_assoc, List.cons_append, hpre2, hpre]
  · rw [if_neg hh]
    cases hb : postalBody l with
    | none => exact ⟨[], rfl⟩
    | some r =>
      obtain ⟨pre, hpre⟩ := exists_postalBody l r hb
      obtain ⟨pre2, hpre2, -⟩ := exists_dropWhile jsWhitespace r
      exact ⟨pre ++ pre2, by rw [List.append_assoc, hpre2, hpre]⟩

/-- Unconditional description of the output character list: the guard for
the empty string coincides with the pipeline value on `[]`. -/
theorem norm_data (s : String) :
    (normalizeGoogleFormattedAddress s).data =
      jsTrim (firstSegment (commaToSpace
        (stripPostal (stripCountry s.data)))) := by
  by_cases h : s = ""
  · subst h
    have h1 : stripPostal (stripCountry ("" : String).data) = [] := rfl
    rw [normalizeGoogleFormattedAddress, if_pos rfl, h1, commaToSpace]
    rfl
  · rw [normalizeGoogleFormattedAddress, if_neg h]

/-- The output never contains an ASCII space. -/
theorem space_not_mem_out (s : String) :
    ' ' ∉ (normalizeGoogleFormattedAddress s).data := by
  rw [norm_data, firstSegment_commaToSpace]
  intro h
  have h2 := mem_takeWhile_pred _ _ _ (mem_of_mem_jsTrim _ _ h)
  simp at h2

/-- The output never contains an ASCII comma. -/
theorem comma_not_mem_out (s : String) :
    ',' ∉ (normalizeGoogleFormattedAddress s).data := by
  rw [norm_data, firstSegment_commaToSpace]
  intro h
  have h2 := mem_takeWhile_pred _ _ _ (mem_of_mem_jsTrim _ _ h)
  simp at h2

/-- The output is already trimmed. -/
theorem jsTrim_out (s : String) :
    jsTrim (normalizeGoogleFormattedAddress s).data =
      (normalizeGoogleFormattedAddress s).data := by
  rw [norm_data]
  exact jsTrim_idem _

/-! ### The structured-fields strategy -/

/-- Modelled from the spec: the repository source contains only the
formatted-string strategy; the structured-fields strategy is described in
the spec (§4.1, operation `formatFromStructuredFields`) but its code is
not under `src/`.  The fields are the optional named address components
the spec enumerates, with absence encoded as the empty string. -/
structure StructuredFields where
  state : String := ""
  province : String := ""
  region : String := ""
  city : String := ""
  city_district : String := ""
  town : String := ""
  village : String := ""
  county : String := ""
  suburb : String := ""
  neighbourhood : String := ""
  hamlet : String := ""
  quarter : String := ""
  block : String := ""
  road : String := ""
  house_number : String := ""
  postcode : String := ""

/-- First non-empty candidate for a logical slot, or the empty string. -/
def firstNonempty (xs : List String) : String :=
  match xs.find? (fun s => !(s = "")) with
  | some s => s
  | none => ""

/-- Modelled from the spec: `formatFromStructuredFields(fields)` (§4.1).
Per logical slot the first non-empty source field wins; the non-empty
slots are joined in the fixed order region, locality, sublocality, block,
street+number with single spaces; road and house number are concatenated
with no separator; a present postal code prefixes the result with the 〒
marker and a space. -/
def formatFromStructuredFields (fd : StructuredFields) : String :=
  let rg := firstNonempty [fd.state, fd.province, fd.region]
  let lo := firstNonempty [fd.city, fd.city_district, fd.town, fd.village,
    fd.county]
  let su := firstNonempty [fd.suburb, fd.neighbourhood, fd.hamlet, fd.quarter]
  let st := fd.road ++ fd.house_number
  let parts := [rg, lo, su, fd.block, st].filter (fun s => !(s = ""))
  let assembled := String.intercalate " " parts
  if fd.postcode = "" then assembled
  else "〒" ++ fd.postcode ++ " " ++ assembled

/-! ### The claims -/

/-- C1: on the sampled input the formatted-string strategy strips the
country token and the postal code and truncates the trailing building
name at the first space, giving exactly 長崎県長崎市矢上町５０−２. -/
theorem normalize_formatted_example :
    normalizeGoogleFormattedAddress
        "日本、〒851-0133 長崎県長崎市矢上町５０−２ アメニティーハウス１"
      = "長崎県長崎市矢上町５０−２" := by
  rw [normalize_eq_scan]
  decide

/-- C2: the structured-fields strategy on
state Nagasaki, city Nagasaki-shi, road Yagami-cho, house number 50-2
returns the slots joined with single spaces and road and house number
concatenated without separator. -/
theorem structured_fields_example :
    formatFromStructuredFields
        ⟨"Nagasaki", "", "", "Nagasaki-shi", "", "", "", "", "", "", "",
          "", "", "Yagami-cho", "50-2", ""⟩
      = "Nagasaki Nagasaki-shi Yagami-cho50-2" := by
  decide

/-- C3: the formatted-string strategy is total: every input string,
including the empty one, is mapped to a defined result string. -/
theorem normalize_total :
    ∀ s : String, ∃ r : String, normalizeGoogleFormattedAddress s = r :=
  fun _ => ⟨_, rfl⟩

/-- C8: the empty input yields the empty output. -/
theorem normalize_empty :
    normalizeGoogleFormattedAddress "" = "" := by
  rw [normalizeGoogleFormattedAddress, if_pos rfl]

/-- C9: the transform is deterministic and depends only on its argument:
equal inputs give equal outputs. -/
theorem normalize_deterministic (s t : String) (h : s = t) :
    normalizeGoogleFormattedAddress s = normalizeGoogleFormattedAddress t :=
  congrArg normalizeGoogleFormattedAddress h

/-- Witness for C9 at the concrete input abc. -/
theorem normalize_deterministic_witness :
    normalizeGoogleFormattedAddress "abc" =
      normalizeGoogleFormattedAddress "abc" :=
  normalize_deterministic "abc" "abc" rfl

/-- C4: once the output no longer matches the country pattern, the postal
pattern or the space-separated building pattern, feeding it back through
the formatted-string strategy changes nothing. -/
theorem normalize_conditional_idem (s : String)
    (h1 : hasCountryPat (normalizeGoogleFormattedAddress s) = false)
    (h2 : hasPostalPat (normalizeGoogleFormattedAddress s) = false)
    (_h3 : hasSpacePat (normalizeGoogleFormattedAddress s) = false) :
    normalizeGoogleFormattedAddress (normalizeGoogleFormattedAddress s) =
      normalizeGoogleFormattedAddress s := by
  rw [hasCountryPat] at h1
  rw [hasPostalPat] at h2
  by_cases hr : normalizeGoogleFormattedAddress s = ""
  · rw [hr, normalizeGoogleFormattedAddress, if_pos rfl]
  · rw [normalizeGoogleFormattedAddress, if_neg hr,
      stripCountry_of_no_pat _ h1, stripPostal_of_no_pat _ h2,
      commaToSpace_of_no_comma _ (comma_not_mem_out s), firstSegment,
      takeWhile_eq_self_of_all _ _
        (fun a ha => by
          have hne : a ≠ ' ' := fun hsp =>
            absurd (hsp ▸ ha) (space_not_mem_out s)
          simp [hne]),
      jsTrim_out, strMk_data]

/-- Witness for C4 at the concrete input abc, whose output abc matches
none of the three patterns. -/
theorem normalize_conditional_idem_witness :
    normalizeGoogleFormattedAddress (normalizeGoogleFormattedAddress "abc") =
      normalizeGoogleFormattedAddress "abc" := by
  have he : normalizeGoogleFormattedAddress "abc" = "abc" := by
    rw [normalize_eq_scan]
    decide
  exact normalize_conditional_idem "abc" (by rw [he]; decide)
    (by rw [he]; decide) (by rw [he]; decide)

/-- C7: the output is a contiguous substring of the input; no character
is ever inserted. -/
theorem output_substring_of_input (s : String) :
    ∃ pre post,
      s.data = pre ++ (normalizeGoogleFormattedAddress s).data ++ post := by
  rw [norm_data, firstSegment_commaToSpace]
  set T := (stripPostal (stripCountry s.data)).takeWhile
    (fun c => !(c = ' ' || c = ',')) with hT
  obtain ⟨p1, hp1⟩ := exists_stripCountry s.data
  obtain ⟨p2, hp2⟩ := exists_stripPostal (stripCountry s.data)
  obtain ⟨post1, hpost1⟩ :=
    exists_takeWhile (fun c => !(c = ' ' || c = ','))
      (stripPostal (stripCountry s.data))
  obtain ⟨tp, tq, htrim⟩ := exists_jsTrim T
  refine ⟨p1 ++ p2 ++ tp, tq ++ post1, ?_⟩
  calc s.data = p1 ++ stripCountry s.data := hp1.symm
    _ = p1 ++ (p2 ++ stripPostal (stripCountry s.data)) := by rw [hp2]
    _ = p1 ++ (p2 ++ (T ++ post1)) := by rw [← hpost1, ← hT]
    _ = p1 ++ (p2 ++ ((tp ++ jsTrim T ++ tq) ++ post1)) := by rw [htrim]
    _ = (p1 ++ p2 ++ tp) ++ jsTrim T ++ (tq ++ post1) := by
        simp [List.append_assoc]

/-- C10: when the stripped remainder begins with an ASCII comma or an
ASCII space, the whole remaining address is discarded and the output is
empty. -/
theorem leading_sep_yields_empty (s : String)
    (h : (stripPostal (stripCountry s.data)).head? = some ',' ∨
      (stripPostal (stripCountry s.data)).head? = some ' ') :
    normalizeGoogleFormattedAddress s = "" := by
  rw [← strMk_data (normalizeGoogleFormattedAddress s), norm_data]
  cases hX : stripPostal (stripCountry s.data) with
  | nil => rw [hX] at h; simp at h
  | cons c t =>
    rw [hX] at h
    simp only [List.head?_cons, Option.some.injEq] at h
    rcases h with h | h
    · subst h
      rw [commaToSpace, if_pos rfl, firstSegment,
        List.takeWhile_cons_of_neg (by decide)]
      rfl
    · subst h
      rw [commaToSpace, if_neg (by decide), firstSegment,
        List.takeWhile_cons_of_neg (by decide)]
      rfl

/-- Witness for C10: after the postal code of 〒123-4567, X the remainder
starts with a comma, and the output is empty. -/
theorem leading_sep_yields_empty_witness :
    normalizeGoogleFormattedAddress "〒123-4567, X" = "" :=
  leading_sep_yields_empty "〒123-4567, X" (Or.inl (by decide))

/-- When a list contains a space, dropping its space-free part reaches
that first space. -/
theorem exists_dropWhile_space (l : List Char) (h : ' ' ∈ l) :
    ∃ t, l.dropWhile (fun c => !(c = ' ')) = ' ' :: t := by
  induction l with
  | nil => simp at h
  | cons c rest ih =>
    by_cases hc : c = ' '
    · subst hc
      exact ⟨rest, List.dropWhile_cons_of_neg (by simp)⟩
    · rcases List.mem_cons.mp h with h | h
      · exact absurd h.symm hc
      · obtain ⟨t, ht⟩ := ih h
        exact ⟨t, by rw [List.dropWhile_cons_of_pos (by simp [hc]), ht]⟩

/-- C6 counterexample: on the input a TAB, the value after the comma step
is the two characters a TAB, which contain no space, so the claim makes
the output exactly those two characters; the function instead trims and
returns a alone. -/
theorem truncation_counterexample :
    normalizeGoogleFormattedAddress "a\t" = "a" ∧
      firstSegment (commaToSpace (stripPostal (stripCountry ("a\t").data)))
        = ['a', '\t'] ∧
      ("a" : String).data ≠ ['a', '\t'] := by
  refine ⟨?_, ?_, by decide⟩
  · rw [normalize_eq_scan]
    decide
  · rw [firstSegment_commaToSpace]
    decide

/-- C6 amended: for every input, the returned value is the segment of the
comma-collapsed, prefix-stripped string before its first space (the
whole string when it has no space), with leading and trailing whitespace
then trimmed away. -/
theorem truncation_amended (s : String) :
    ∃ seg,
      (normalizeGoogleFormattedAddress s).data = jsTrim seg ∧
      ' ' ∉ seg ∧
      (commaToSpace (stripPostal (stripCountry s.data)) = seg ∨
        ∃ rest,
          commaToSpace (stripPostal (stripCountry s.data)) =
            seg ++ ' ' :: rest) := by
  refine ⟨firstSegment (commaToSpace (stripPostal (stripCountry s.data))),
    norm_data s, ?_, ?_⟩
  · intro h
    have h2 := mem_takeWhile_pred _ _ _ h
    simp at h2
  · by_cases h : ' ' ∈ commaToSpace (stripPostal (stripCountry s.data))
    · right
      obtain ⟨t, ht⟩ :=
        exists_dropWhile_space (commaToSpace (stripPostal (stripCountry s.data))) h
      refine ⟨t, ?_⟩
      conv_lhs => rw [← List.takeWhile_append_dropWhile
        (fun c => !(c = ' ')) (commaToSpace (stripPostal (stripCountry s.data)))]
      rw [ht]
      rfl
    · left
      rw [firstSegment]
      refine (takeWhile_eq_self_of_all (fun c => !(c = ' ')) _ ?_).symm
      intro a ha
      have hne : a ≠ ' ' := fun he => h (he ▸ ha)
      simp [hne]

/-! ### Decomposed leading tokens (claim C5) -/

/-- The country token of the formatted string: 日本 followed by a run of
separator characters. -/
def countryTok (seps : List Char) : List Char :=
  '日' :: '本' :: seps

/-- The postal token: optional 〒 marker, three digits, a hyphen, four
digits, then a run of whitespace. -/
def postalTok (marker : Bool) (a b c d e f g : Char) (ws : List Char) :
    List Char :=
  (if marker then ['〒'] else []) ++
    a :: b :: c :: '-' :: d :: e :: f :: g :: ws

/-- A digit differs from any non-digit character. -/
theorem digit_ne_of_not_digit (x c : Char) (hx : isAsciiDigit x = true)
    (hc : isAsciiDigit c = false) : x ≠ c :=
  fun he => by rw [he, hc] at hx; cases hx

/-- A digit is not ECMAScript whitespace. -/
theorem digit_not_ws (x : Char) (hx : isAsciiDigit x = true) :
    jsWhitespace x = false := by
  simp only [isAsciiDigit, Bool.and_eq_true, decide_eq_true_eq] at hx
  simp only [jsWhitespace, Bool.or_eq_false_iff, Bool.and_eq_false_iff,
    decide_eq_false_iff_not]
  omega

/-- A digit is not a country separator. -/
theorem digit_not_countrySep (x : Char) (hx : isAsciiDigit x = true) :
    countrySep x = false := by
  have h1 : x ≠ '、' := digit_ne_of_not_digit x _ hx (by decide)
  have h2 : x ≠ ',' := digit_ne_of_not_digit x _ hx (by decide)
  simp [countrySep, h1, h2, digit_not_ws x hx]

/-- A list that cannot start with 日 is untouched by the country strip. -/
theorem stripCountry_of_head (l : List Char)
    (h : l.head? = some '日' → False) : stripCountry l = l := by
  rw [stripCountry, if_neg (fun hcon => h hcon.1)]

/-- Stripping the country token drops the trailing separators into the
remainder. -/
theorem stripCountry_tok (seps rest : List Char)
    (hseps : ∀ x ∈ seps, countrySep x = true) :
    stripCountry (countryTok seps ++ rest) = rest.dropWhile countrySep := by
  show stripCountry ('日' :: '本' :: (seps ++ rest)) = _
  rw [stripCountry, if_pos (by simp)]
  exact dropWhile_append_of_all countrySep seps rest hseps

/-- The postal body accepts the seven digits around the hyphen. -/
theorem postalBody_tok (a b c d e f g : Char) (tl : List Char)
    (ha : isAsciiDigit a = true) (hb : isAsciiDigit b = true)
    (hc : isAsciiDigit c = true) (hd : isAsciiDigit d = true)
    (he : isAsciiDigit e = true) (hf : isAsciiDigit f = true)
    (hg : isAsciiDigit g = true) :
    postalBody (a :: b :: c :: '-' :: d :: e :: f :: g :: tl) =
      some tl := by
  rw [postalBody.eq_def]
  simp [ha, hb, hc, hd, he, hf, hg]

/-- Reduction of the postal strip on a marked match. -/
theorem stripPostal_marker_tok (rest r2 : List Char)
    (hb : postalBody rest = some r2) :
    stripPostal ('〒' :: rest) = r2.dropWhile jsWhitespace := by
  rw [stripPostal, if_pos (by simp), List.tail_cons, hb]

/-- Reduction of the postal strip on a marker-less match. -/
theorem stripPostal_digit_tok (a : Char) (rest r2 : List Char)
    (hne : a ≠ '〒') (hb : postalBody (a :: rest) = some r2) :
    stripPostal (a :: rest) = r2.dropWhile jsWhitespace := by
  rw [stripPostal, if_neg (by simp [hne]), hb]

/-- The normalization of a rebuilt string, expressed on character
lists. -/
theorem norm_mk (l : List Char) :
    normalizeGoogleFormattedAddress (String.mk l) =
      String.mk (jsTrim (firstSegment (commaToSpace
        (stripPostal (stripCountry l))))) := by
  have h := norm_data (String.mk l)
  have h2 : (String.mk l).data = l := rfl
  rw [h2] at h
  rw [← strMk_data (normalizeGoogleFormattedAddress (String.mk l)), h]

/-- Both prefix-stripping steps together remove a well-formed country
token and a well-formed postal token, leaving a maximal remainder
untouched. -/
theorem strip_both_tokens
    (useCountry usePostal marker : Bool)
    (seps ws r : List Char) (a b c d e f g : Char)
    (hseps : ∀ x ∈ seps, countrySep x = true)
    (hws : ∀ x ∈ ws, jsWhitespace x = true)
    (ha : isAsciiDigit a = true) (hb2 : isAsciiDigit b = true)
    (hc2 : isAsciiDigit c = true) (hd : isAsciiDigit d = true)
    (he : isAsciiDigit e = true) (hf : isAsciiDigit f = true)
    (hg : isAsciiDigit g = true)
    (hrc : countryPatL r = false)
    (hrp : postalPatL r = false)
    (hr1 : usePostal = true → r.dropWhile jsWhitespace = r)
    (hr2 : usePostal = false → useCountry = true →
      r.dropWhile countrySep = r) :
    stripPostal (stripCountry
        (cond useCountry (countryTok seps) [] ++
          cond usePostal (postalTok marker a b c d e f g ws) [] ++ r)) =
      r := by
  have hpost : ∀ rr : List Char,
      stripPostal (postalTok marker a b c d e f g ws ++ rr) =
        (ws ++ rr).dropWhile jsWhitespace := by
    intro rr
    cases marker with
    | true =>
      show stripPostal
        ('〒' :: (a :: b :: c :: '-' :: d :: e :: f :: g :: (ws ++ rr))) = _
      rw [stripPostal_marker_tok _ _
        (postalBody_tok a b c d e f g (ws ++ rr) ha hb2 hc2 hd he hf hg)]
    | false =>
      show stripPostal
        (a :: b :: c :: '-' :: d :: e :: f :: g :: (ws ++ rr)) = _
      rw [stripPostal_digit_tok a _ _
        (digit_ne_of_not_digit a '〒' ha (by decide))
        (postalBody_tok a b c d e f g (ws ++ rr) ha hb2 hc2 hd he hf hg)]
  have hpostHead : ∀ x, (postalTok marker a b c d e f g ws).head? = some x →
      isAsciiDigit x = true ∨ x = '〒' := by
    intro x hx
    cases marker with
    | true =>
      have hx2 : some '〒' = some x := hx
      injection hx2 with hx2
      exact Or.inr hx2.symm
    | false =>
      have hx2 : some a = some x := hx
      injection hx2 with hx2
      exact Or.inl (hx2 ▸ ha)
  cases useCountry with
  | false =>
    cases usePostal with
    | false =>
      simp only [cond_false, List.nil_append]
      rw [stripCountry_of_no_pat _ hrc, stripPostal_of_no_pat _ hrp]
    | true =>
      simp only [cond_false, cond_true, List.nil_append]
      rw [stripCountry_of_head _ ?hd1, hpost r,
        dropWhile_append_of_all jsWhitespace ws r hws, hr1 rfl]
      case hd1 =>
        intro hx
        cases hm : postalTok marker a b c d e f g ws with
        | nil => cases marker <;> simp [postalTok] at hm
        | cons u t =>
          rw [hm, List.cons_append, List.head?_cons] at hx
          injection hx with hx
          have hu : (postalTok marker a b c d e f g ws).head? = some u := by
            rw [hm, List.head?_cons]
          rcases hpostHead u hu with hdig | hmark
          · exact digit_ne_of_not_digit u '日' hdig (by decide) hx
          · rw [hmark] at hx
            exact absurd hx (by decide)
  | true =>
    cases usePostal with
    | false =>
      simp only [cond_true, cond_false, List.append_nil]
      rw [stripCountry_tok seps r hseps, hr2 rfl rfl,
        stripPostal_of_no_pat _ hrp]
    | true =>
      simp only [cond_true]
      rw [List.append_assoc, stripCountry_tok seps _ hseps,
        dropWhile_eq_self_of_head countrySep _ ?hd2, hpost r,
        dropWhile_append_of_all jsWhitespace ws r hws, hr1 rfl]
      case hd2 =>
        intro x hx
        cases hm : postalTok marker a b c d e f g ws with
        | nil => cases marker <;> simp [postalTok] at hm
        | cons u t =>
          rw [hm, List.cons_append, List.head?_cons] at hx
          injection hx with hx
          have hu : (postalTok marker a b c d e f g ws).head? = some x := by
            rw [hm, List.head?_cons, hx]
          rcases hpostHead x hu with hdig | hmark
          · exact digit_not_countrySep x hdig
          · rw [hmark]
            decide

/-- C5 counterexample: the input 〒123-4567 X decomposes into a
well-formed postal token (empty optional whitespace) followed by the
remainder " X", which matches neither leading pattern; yet the output on
the whole input (X) differs from the output on the remainder alone
(empty, because the remainder starts with the space the token left
behind). -/
theorem strip_tokens_counterexample :
    ("〒123-4567 X" : String).data =
        postalTok true '1' '2' '3' '4' '5' '6' '7' [] ++ (" X" : String).data
      ∧ countryPatL (" X" : String).data = false
      ∧ postalPatL (" X" : String).data = false
      ∧ normalizeGoogleFormattedAddress "〒123-4567 X" ≠
          normalizeGoogleFormattedAddress " X" := by
  refine ⟨by decide, by decide, by decide, ?_⟩
  rw [normalize_eq_scan, normalize_eq_scan]
  decide

/-- C5 amended: the prefix-stripping property holds when the
decomposition is maximal: the remainder must also not begin inside the
greedy separator runs — after a postal token it must not start with
whitespace, and after a bare country token it must not start with a
separator character. -/
theorem strip_tokens_amended
    (useCountry usePostal marker : Bool)
    (seps ws r : List Char) (a b c d e f g : Char)
    (hseps : ∀ x ∈ seps, countrySep x = true)
    (hws : ∀ x ∈ ws, jsWhitespace x = true)
    (ha : isAsciiDigit a = true) (hb2 : isAsciiDigit b = true)
    (hc2 : isAsciiDigit c = true) (hd : isAsciiDigit d = true)
    (he : isAsciiDigit e = true) (hf : isAsciiDigit f = true)
    (hg : isAsciiDigit g = true)
    (hrc : countryPatL r = false)
    (hrp : postalPatL r = false)
    (hr1 : usePostal = true → r.dropWhile jsWhitespace = r)
    (hr2 : usePostal = false → useCountry = true →
      r.dropWhile countrySep = r) :
    normalizeGoogleFormattedAddress (String.mk
        (cond useCountry (countryTok seps) [] ++
          cond usePostal (postalTok marker a b c d e f g ws) [] ++ r)) =
      normalizeGoogleFormattedAddress (String.mk r) := by
  rw [norm_mk, norm_mk,
    strip_both_tokens useCountry usePostal marker seps ws r a b c d e f g
      hseps hws ha hb2 hc2 hd he hf hg hrc hrp hr1 hr2,
    stripCountry_of_no_pat _ hrc, stripPostal_of_no_pat _ hrp]

/-- Witness for C5 amended at the sampled address: stripping the
country token 日本、 and the postal token 〒851-0133 with its trailing
space gives the normalization of the remainder alone. -/
theorem strip_tokens_amended_witness :
    normalizeGoogleFormattedAddress
        "日本、〒851-0133 長崎県長崎市矢上町５０−２ アメニティーハウス１" =
      normalizeGoogleFormattedAddress
        "長崎県長崎市矢上町５０−２ アメニティーハウス１" := by
  have h := strip_tokens_amended true true true ['、'] [' ']
    ("長崎県長崎市矢上町５０−２ アメニティーハウス１" : String).data
    '8' '5' '1' '0' '1' '3' '3'
    (by decide) (by decide) (by decide) (by decide) (by decide) (by decide)
    (by decide) (by decide) (by decide) (by decide) (by decide)
    (fun _ => by decide) (fun h1 _ => nomatch h1)
  have e1 : String.mk
      (cond true (countryTok ['、']) [] ++
        cond true (postalTok true '8' '5' '1' '0' '1' '3' '3' [' ']) [] ++
        ("長崎県長崎市矢上町５０−２ アメニティーハウス１" : String).data) =
      "日本、〒851-0133 長崎県長崎市矢上町５０−２ アメニティーハウス１" := by
    decide
  have e2 : String.mk
      ("長崎県長崎市矢上町５０−２ アメニティーハウス１" : String).data =
      "長崎県長崎市矢上町５０−２ アメニティーハウス１" :=
    strMk_data _
  rw [e1, e2] at h
  exact h

end AddressNorm
